import Mathlib

/-
Verification of the neiro audio-processing core.

This file gives a shallow embedding of the TypeScript sources
(`src/audio-track.ts`, `src/dsp/biquad-filter.ts`, `src/dsp/k-weighting.ts`,
`src/dsp/lufs.ts`, `src/dsp/true-peak.ts`, `src/dsp/utils.ts`,
`src/codecs/wav.ts`, `src/transforms/*.ts`) and proves or refutes the
specification claims about them.

Modelling conventions:
- JavaScript numbers are modelled as real numbers (`ℝ`).  Every finite
  JavaScript float is rational, hence real; transcendental library calls
  (`Math.pow`, `Math.log10`, `Math.sin`, `Math.sqrt`) are modelled by the
  exact real functions.
- The WAV codec performs only arithmetic that is exact in double precision
  (products of an int16 range scalar with a float32 sample, truncation, and
  division by 32768), so it is modelled over `ℚ` and is fully computable.
- Sample buffers are lists; `l.getD i 0` models an in-bounds typed-array
  read `l[i]` (all reads in the embedded code paths are in bounds unless
  explicitly discussed).
- Code that can throw is modelled in `Except Err`; the error constructors
  below correspond exactly to the `throw` sites present in the source plus
  the runtime `RangeError`s that typed arrays and `DataView` can raise.
  JavaScript `-Infinity` results of the loudness pipeline are modelled by
  `Option ℝ` with `none` standing for `-Infinity`.
-/

namespace Neiro

/-- Error conditions.  The first five correspond to explicit `throw new
Error(...)` statements in the source; `rangeError` models the runtime
`RangeError` thrown by `new Float32Array(len)` for an invalid length and by
`DataView.getInt16` for an out-of-bounds read.  Note there is no
constructor for an invalid speed rate and none for a sample-rate mismatch:
the source contains no such checks. -/
inductive Err where
  | channelCountMismatch
  | channelIndexOutOfBounds
  | invalidWavTooShort
  | invalidWavBadHeader
  | unsupportedSampleRate
  | rangeError
deriving DecidableEq, Repr

/-! ## dsp/utils.ts : dB/linear conversion -/

/-- `dbToLinear(db)` from `src/dsp/utils.ts`: `Math.pow(10, db / 20)`.
The JavaScript guard `db === -Infinity → 0` has no counterpart here because
`ℝ` has no infinities; all uses in the embedded flows pass finite values. -/
noncomputable def dbToLinear (db : ℝ) : ℝ := (10 : ℝ) ^ (db / 20)

/-! ## dsp/biquad-filter.ts -/

/-- The raw coefficient record `BiquadCoefficients`. -/
structure BiquadCoefficients where
  b0 : ℝ
  b1 : ℝ
  b2 : ℝ
  a0 : ℝ
  a1 : ℝ
  a2 : ℝ

/-- The normalized coefficients a `BiquadFilter` instance stores
(`this.b0 = coeffs.b0 / a0`, etc.). -/
structure BiquadFilter where
  b0 : ℝ
  b1 : ℝ
  b2 : ℝ
  a1 : ℝ
  a2 : ℝ

/-- The constructor of `BiquadFilter`: divide every coefficient by `a0`. -/
noncomputable def mkBiquadFilter (c : BiquadCoefficients) : BiquadFilter :=
  ⟨c.b0 / c.a0, c.b1 / c.a0, c.b2 / c.a0, c.a1 / c.a0, c.a2 / c.a0⟩

/-- The filter state `x1, x2, y1, y2` (two previous inputs and outputs). -/
structure BiquadState where
  x1 : ℝ
  x2 : ℝ
  y1 : ℝ
  y2 : ℝ

/-- Fresh / `reset()` state: all four components zero. -/
def biquadZeroState : BiquadState := ⟨0, 0, 0, 0⟩

/-- `BiquadFilter.process(x)`: Direct Form I step.  Returns the output and
the updated state (the source mutates `this`). -/
def BiquadFilter.process (f : BiquadFilter) (s : BiquadState) (x : ℝ) :
    ℝ × BiquadState :=
  let y := f.b0 * x + f.b1 * s.x1 + f.b2 * s.x2 - f.a1 * s.y1 - f.a2 * s.y2
  (y, ⟨x, s.x1, y, s.y1⟩)

/-- `BiquadFilter.processBuffer(input)`: the source loops over the buffer
writing `output[i] = this.process(input[i])`; rendered as structural
recursion threading the state. -/
def BiquadFilter.processBuffer (f : BiquadFilter) (s : BiquadState) :
    List ℝ → List ℝ × BiquadState
  | [] => ([], s)
  | x :: rest =>
    let r := f.process s x
    let rec' := f.processBuffer r.2 rest
    (r.1 :: rec'.1, rec'.2)

/-- Modelled from the spec: the filter state after `n` sequential
`process` calls on a list of inputs. -/
def BiquadFilter.stateAfter (f : BiquadFilter) (s : BiquadState)
    (l : List ℝ) : BiquadState :=
  l.foldl (fun st x => (f.process st x).2) s

/-- Modelled from the spec: "the i-th output equals exactly the value
returned by the i-th call of `process` on `x[i]` starting from the same
state". -/
def BiquadFilter.seqOutput (f : BiquadFilter) (s : BiquadState)
    (l : List ℝ) (i : ℕ) : ℝ :=
  (f.process (f.stateAfter s (l.take i)) (l.getD i 0)).1

/-! ## dsp/true-peak.ts -/

/-- `besselI0`'s summation loop: `fuel` counts the remaining iterations of
`for (k = 1; k <= 20; k++)`, `k` is the loop counter, `term` and `sum` the
accumulators; the loop breaks once `term < 1e-12 * sum` (checked against
the updated sum, as in the source). -/
noncomputable def besselI0Iter (halfX : ℝ) : ℕ → ℕ → ℝ → ℝ → ℝ
  | 0, _, _, sum => sum
  | fuel + 1, k, term, sum =>
    let term1 := term * (halfX / k) * (halfX / k)
    let sum1 := sum + term1
    if term1 < 1 / 10 ^ 12 * sum1 then sum1
    else besselI0Iter halfX fuel (k + 1) term1 sum1

/-- Modified Bessel function of the first kind, order 0, as the source
computes it (power series, at most 20 terms). -/
noncomputable def besselI0 (x : ℝ) : ℝ := besselI0Iter (x / 2) 20 1 1 1

/-- `sincCenter`: `Math.round((TOTAL_TAPS - 1) / 2 / OVERSAMPLING_FACTOR) *
OVERSAMPLING_FACTOR` with `TOTAL_TAPS = 48`, `OVERSAMPLING_FACTOR = 4`. -/
noncomputable def sincCenter : ℝ := ((round (((48 : ℝ) - 1) / 2 / 4) : ℤ) : ℝ) * 4

/-- `windowCenter = (TOTAL_TAPS - 1) / 2`. -/
noncomputable def windowCenter : ℝ := ((48 : ℝ) - 1) / 2

/-- One prototype tap `h[n] = sinc((n - S)/L) * kaiser(beta, (n - W)/W)`,
with the sinc branch at `|x| < 1e-10` and the Kaiser window via
`besselI0`, exactly as in `generatePolyphaseCoefficients`. -/
noncomputable def prototypeTap (n : ℕ) : ℝ :=
  let x := ((n : ℝ) - sincCenter) / 4
  let sinc := if |x| < 1 / 10 ^ 10 then 1 else Real.sin (Real.pi * x) / (Real.pi * x)
  let windowArg := ((n : ℝ) - windowCenter) / windowCenter
  let sqVal := 1 - windowArg * windowArg
  let window := if sqVal ≤ 0 then 0 else besselI0 (5 * Real.sqrt sqVal) / besselI0 5
  sinc * window

/-- `generatePolyphaseCoefficients()`: split the 48 prototype taps into 4
phases of 12 taps (`phase[p][k] = prototype[k*4 + p]`), then divide each
phase's taps by that phase's tap sum. -/
noncomputable def generatePolyphaseCoefficients : List (List ℝ) :=
  let phases := (List.range 4).map fun p =>
    (List.range 12).map fun k => prototypeTap (k * 4 + p)
  phases.map fun phase => phase.map fun c => c / phase.sum

/-- The module-level constant `PHASES`. -/
noncomputable def PHASES : List (List ℝ) := generatePolyphaseCoefficients

/-- One iteration of `measureTruePeak`'s main loop at input index `n`:
track the raw sample peak, then (unless `n < FIR_TAPS_PER_PHASE - 1`)
also the `L = 4` interpolated values `sum_k phase[p][k] * x[n-k]`. -/
noncomputable def truePeakStep (samples : List ℝ) (peak : ℝ) (n : ℕ) : ℝ :=
  let rawAbs := |samples.getD n 0|
  let peak1 := if peak < rawAbs then rawAbs else peak
  if n < 12 - 1 then peak1
  else
    (List.range 4).foldl (fun pk p =>
      let sum := (List.range 12).foldl
        (fun s k => s + (PHASES.getD p []).getD k 0 * samples.getD (n - k) 0) 0
      if pk < |sum| then |sum| else pk) peak1

/-- `measureTruePeak(samples, sampleRate)` from `src/dsp/true-peak.ts`. -/
noncomputable def measureTruePeak (samples : List ℝ) (_sampleRate : ℕ) : ℝ :=
  if samples.length = 0 then 0
  else (List.range samples.length).foldl (truePeakStep samples) 0

/-! ## audio-track.ts : the Track facade (data) -/

/-- The immutable `AudioTrack`: channel buffers plus a sample rate. -/
structure AudioTrack where
  channels : List (List ℝ)
  sampleRate : ℕ

/-- `AudioTrack.fromChannels({channels, sampleRate})`: the source performs
no validation whatsoever — it just wraps the arrays. -/
def AudioTrack.fromChannels (channels : List (List ℝ)) (sampleRate : ℕ) :
    AudioTrack :=
  ⟨channels, sampleRate⟩

/-- `AudioTrack.truePeak()`: fold of `measureTruePeak` over the channels,
keeping the larger value, starting from 0. -/
noncomputable def AudioTrack.truePeak (t : AudioTrack) : ℝ :=
  t.channels.foldl
    (fun peak ch =>
      let p := measureTruePeak ch t.sampleRate
      if peak < p then p else peak) 0

/-! ## dsp/k-weighting.ts -/

/-- 48 000 Hz pre-filter coefficients (`PREFILTER_48000`). -/
noncomputable def PREFILTER_48000 : BiquadCoefficients :=
  ⟨1.53512485958697, -2.69169618940638, 1.19839281085285,
    1.0, -1.69065929318241, 0.73248077421585⟩

/-- 48 000 Hz RLB coefficients (`RLB_48000`). -/
noncomputable def RLB_48000 : BiquadCoefficients :=
  ⟨1.0, -2.0, 1.0, 1.0, -1.99004745483398, 0.99007225036621⟩

/-- 44 100 Hz pre-filter coefficients (`PREFILTER_44100`). -/
noncomputable def PREFILTER_44100 : BiquadCoefficients :=
  ⟨1.5308412300498355, -2.6509799951536985, 1.1690790799210682,
    1.0, -1.6636551132560204, 0.7125954280732254⟩

/-- 44 100 Hz RLB coefficients (`RLB_44100`). -/
noncomputable def RLB_44100 : BiquadCoefficients :=
  ⟨1.0, -2.0, 1.0, 1.0, -1.9891696736297957, 0.9891990357870394⟩

/-- `createKWeightingFilters(sampleRate)`: the two fresh filters for a
supported rate, `UnsupportedSampleRate` otherwise.  (The source tests
48000 first, then 44100.) -/
noncomputable def createKWeightingFilters (sampleRate : ℕ) :
    Except Err (BiquadFilter × BiquadFilter) :=
  if sampleRate = 48000 then
    .ok (mkBiquadFilter PREFILTER_48000, mkBiquadFilter RLB_48000)
  else if sampleRate = 44100 then
    .ok (mkBiquadFilter PREFILTER_44100, mkBiquadFilter RLB_44100)
  else .error .unsupportedSampleRate

/-- `applyKWeighting(samples, sampleRate)`: RLB after pre-filter, both
starting from zero state. -/
noncomputable def applyKWeighting (samples : List ℝ) (sampleRate : ℕ) :
    Except Err (List ℝ) := do
  let filters ← createKWeightingFilters sampleRate
  let afterPre := (filters.1.processBuffer biquadZeroState samples).1
  let afterRlb := (filters.2.processBuffer biquadZeroState afterPre).1
  return afterRlb

/-- `getChannelWeight(channelIndex, totalChannels)`. -/
noncomputable def getChannelWeight (channelIndex totalChannels : ℕ) : ℝ :=
  if totalChannels ≤ 2 then 1
  else if totalChannels = 6 then
    if channelIndex = 3 then 0
    else if channelIndex = 4 ∨ channelIndex = 5 then 1.41253754462275
    else 1
  else 1

/-! ## dsp/lufs.ts -/

/-- `meanSquareToLufs(ms)`; JavaScript's `-Infinity` is `none`. -/
noncomputable def meanSquareToLufs (meanSquare : ℝ) : Option ℝ :=
  if meanSquare ≤ 0 then none
  else some (-0.691 + 10 * Real.logb 10 meanSquare)

/-- `lufsToMeanSquare(lufs) = 10^((lufs + 0.691)/10)`. -/
noncomputable def lufsToMeanSquare (lufs : ℝ) : ℝ :=
  (10 : ℝ) ^ ((lufs + 0.691) / 10)

/-- `calculateBlockMeanSquares(channels, sampleRate)`.  `blockSize =
Math.floor(0.4 * rate)` is written `2 * rate / 5` (equal for every
natural rate, in particular the only reachable rates 44100 and 48000 on
which the double-precision product `0.4 * rate` floors to the same
value); `hopSize = Math.floor(blockSize * 0.25) = blockSize / 4`.  The
strided `for (start = 0; start + blockSize <= N; start += hop)` loop is
rendered by its block count `(N - blockSize) / hop + 1` (hop is positive
for every reachable rate). -/
noncomputable def calculateBlockMeanSquares (channels : List (List ℝ))
    (sampleRate : ℕ) : List ℝ :=
  let blockSize := 2 * sampleRate / 5
  let hopSize := blockSize / 4
  let numChannels := channels.length
  let numSamples := (channels.headD []).length
  if numSamples < blockSize then []
  else
    let weights := (List.range numChannels).map fun ch =>
      getChannelWeight ch numChannels
    let numBlocks := (numSamples - blockSize) / hopSize + 1
    (List.range numBlocks).map fun j =>
      let start := j * hopSize
      (List.range numChannels).foldl (fun weightedSum ch =>
        let weight := weights.getD ch 0
        if weight = 0 then weightedSum
        else
          let channelSum := (List.range blockSize).foldl
            (fun s i =>
              let sample := (channels.getD ch []).getD (start + i) 0
              s + sample * sample) 0
          weightedSum + weight * (channelSum / blockSize)) 0

/-- `applyGating(blockMeanSquares)`: absolute gate at −70 LUFS, mean,
relative gate 10 LU below that mean, mean of the survivors; 0 whenever a
stage leaves nothing.  In the (unreachable) case `absoluteMean ≤ 0` the
JavaScript computes `-Infinity` for the relative threshold and
`10^(-Infinity) = 0`; the `none` branch renders that. -/
noncomputable def applyGating (blockMeanSquares : List ℝ) : ℝ :=
  if blockMeanSquares = [] then 0
  else
    let absoluteThreshold := lufsToMeanSquare (-70)
    let afterAbsolute := blockMeanSquares.filter fun ms =>
      decide (absoluteThreshold < ms)
    if afterAbsolute = [] then 0
    else
      let absoluteMean := afterAbsolute.sum / afterAbsolute.length
      let relativeThreshold :=
        match meanSquareToLufs absoluteMean with
        | none => (0 : ℝ)
        | some l => lufsToMeanSquare (l + -10)
      let afterRelative := afterAbsolute.filter fun ms =>
        decide (relativeThreshold < ms)
      if afterRelative = [] then 0
      else afterRelative.sum / afterRelative.length

/-- `calculateIntegratedLoudness(channels, sampleRate)`; the JavaScript
`-Infinity` results are `none`, a thrown `UnsupportedSampleRate` is the
`Except` error. -/
noncomputable def calculateIntegratedLoudness (channels : List (List ℝ))
    (sampleRate : ℕ) : Except Err (Option ℝ) :=
  if channels = [] then .ok none
  else do
    let kWeighted ← channels.mapM fun ch => applyKWeighting ch sampleRate
    let blockMeanSquares := calculateBlockMeanSquares kWeighted sampleRate
    if blockMeanSquares = [] then .ok none
    else
      let integratedMeanSquare := applyGating blockMeanSquares
      if integratedMeanSquare = 0 then .ok none
      else .ok (meanSquareToLufs integratedMeanSquare)

/-! ## transforms/trim-silence.ts -/

/-- The optional `{ threshold?, headMs?, tailMs? }` record. -/
structure TrimSilenceOptions where
  threshold : Option ℝ
  headMs : Option ℝ
  tailMs : Option ℝ

/-- `trimSilence(channels, sampleRate, options?)`.  Defaults (from the
source): `threshold = 0.01` (compared directly against `|sample|`, i.e. a
linear value), `headMs = 0`, `tailMs = 0`.  The first/last loud indices
are the forward/backward scans of the source (`start` stays 0 and `end`
stays `numSamples - 1` when no sample is above threshold); `start/end`
expansion and clamping in `ℤ` mirrors `Math.max(0, ...)` /
`Math.min(numSamples - 1, ...)`; `ch.slice(trimStart, trimEnd + 1)` is
drop-then-take. -/
noncomputable def trimSilence (channels : List (List ℝ)) (sampleRate : ℕ)
    (options : Option TrimSilenceOptions) : List (List ℝ) :=
  let threshold := (options.bind fun o => o.threshold).getD 0.01
  let headMs := (options.bind fun o => o.headMs).getD 0
  let tailMs := (options.bind fun o => o.tailMs).getD 0
  let headSamples : ℤ := ⌊headMs / 1000 * sampleRate⌋
  let tailSamples : ℤ := ⌊tailMs / 1000 * sampleRate⌋
  let numSamples := (channels.headD []).length
  let start : ℕ := ((List.range numSamples).find? fun i =>
    channels.any fun ch => decide (threshold < |ch.getD i 0|)).getD 0
  let endIdx : ℤ := (((List.range numSamples).reverse.find? fun i =>
    channels.any fun ch => decide (threshold < |ch.getD i 0|)).map
      fun i => (i : ℤ)).getD ((numSamples : ℤ) - 1)
  let trimStart : ℤ := max 0 ((start : ℤ) - headSamples)
  let trimEnd : ℤ := min ((numSamples : ℤ) - 1) (endIdx + tailSamples)
  channels.map fun ch => (ch.drop trimStart.toNat).take (trimEnd + 1 - trimStart).toNat

/-! ## transforms/concat.ts, mix.ts, speed.ts -/

/-- `concatChannels(a, b)`: per-index concatenation (`b[i]` is indexed by
`a`'s positions; an out-of-range access is modelled as `[]`). -/
def concatChannels (a b : List (List ℝ)) : List (List ℝ) :=
  (List.range a.length).map fun i => a.getD i [] ++ b.getD i []

/-- `mixChannels(a, b, gainDb = 0)`: sample-wise `a[j] + gain * b[j]`,
zero-extending the shorter channel to the longer length. -/
noncomputable def mixChannels (a b : List (List ℝ)) (gainDb : ℝ) :
    List (List ℝ) :=
  let gain := dbToLinear gainDb
  (List.range a.length).map fun i =>
    let aCh := a.getD i []
    let bCh := b.getD i []
    let length := max aCh.length bCh.length
    (List.range length).map fun j =>
      let aVal := if j < aCh.length then aCh.getD j 0 else 0
      let bVal := if j < bCh.length then bCh.getD j 0 * gain else 0
      aVal + bVal

/-- `changeSpeed(channels, rate)` from `src/transforms/speed.ts`.  The
source performs no sign check on `rate`.  `newLength =
Math.round(ch.length / rate)`; `new Float32Array(newLength)` throws a
`RangeError` for a negative length, which is the only failure mode.  For
`rate = 0` JavaScript divides by zero: `length / 0` is `Infinity`
(allocation throws `RangeError`) for a non-empty channel and `0 / 0` is
`NaN` (`ToIndex(NaN) = 0`, empty output) for an empty one. -/
noncomputable def changeSpeed (channels : List (List ℝ)) (rate : ℝ) :
    Except Err (List (List ℝ)) :=
  channels.mapM fun ch =>
    if rate = 0 then
      if ch.length = 0 then .ok [] else .error .rangeError
    else
      let newLength : ℤ := round ((ch.length : ℝ) / rate)
      if newLength < 0 then .error .rangeError
      else .ok ((List.range newLength.toNat).map fun i =>
        let srcIndex := (i : ℝ) * rate
        let idx0 : ℤ := ⌊srcIndex⌋
        let idx1 : ℤ := min (idx0 + 1) ((ch.length : ℤ) - 1)
        let frac := srcIndex - (idx0 : ℝ)
        ch.getD idx0.toNat 0 * (1 - frac) + ch.getD idx1.toNat 0 * frac)

/-! ## transforms/normalize.ts -/

/-- The optional `{ target?, peakLimit? }` record. -/
structure NormalizeOptions where
  target : Option ℝ
  peakLimit : Option ℝ

/-- `options?.target ?? -14`. -/
def resolveNormalizeTarget (options : Option NormalizeOptions) : ℝ :=
  (options.bind fun o => o.target).getD (-14)

/-- `options?.peakLimit ?? -1` — note the source default is −1, not the
−1.5 of the documentation. -/
def resolveNormalizePeakLimit (options : Option NormalizeOptions) : ℝ :=
  (options.bind fun o => o.peakLimit).getD (-1)

/-- The `maxPeak` loop of `normalizeLoudness`: largest per-channel
`measureTruePeak`, starting from 0. -/
noncomputable def maxTruePeak (channels : List (List ℝ)) (sampleRate : ℕ) : ℝ :=
  channels.foldl (fun maxPeak ch =>
    let peak := measureTruePeak ch sampleRate
    if maxPeak < peak then peak else maxPeak) 0

/-- Lines 21–35 of `normalize.ts` as a scalar function: the
loudness-matching gain `10^((target - L)/20)`, replaced by
`peakLimitLinear / maxPeak` whenever `maxPeak * gain` exceeds
`10^(peakLimit/20)`. -/
noncomputable def normalizeFinalGain (target peakLimitDb currentLoudness
    maxPeak : ℝ) : ℝ :=
  let gainLinear := dbToLinear (target - currentLoudness)
  let peakLimitLinear := dbToLinear peakLimitDb
  if peakLimitLinear < maxPeak * gainLinear then peakLimitLinear / maxPeak
  else gainLinear

/-- `normalizeLoudness(channels, sampleRate, options?)`: measure
loudness; on `-Infinity` return a copy of the input; otherwise scale
every channel by the final gain. -/
noncomputable def normalizeLoudness (channels : List (List ℝ))
    (sampleRate : ℕ) (options : Option NormalizeOptions) :
    Except Err (List (List ℝ)) := do
  let currentLoudness ← calculateIntegratedLoudness channels sampleRate
  match currentLoudness with
  | none => return channels.map fun ch => ch.map id
  | some lufs =>
    let gainFinal := normalizeFinalGain (resolveNormalizeTarget options)
      (resolveNormalizePeakLimit options) lufs (maxTruePeak channels sampleRate)
    return channels.map fun ch => ch.map fun x => x * gainFinal

/-! ## audio-track.ts : facade methods -/

/-- `AudioTrack.concat({other})`: the ONLY check in the source is the
channel-count comparison — sample rates are never compared. -/
def AudioTrack.concat (t other : AudioTrack) : Except Err AudioTrack :=
  if t.channels.length ≠ other.channels.length then
    .error .channelCountMismatch
  else .ok ⟨concatChannels t.channels other.channels, t.sampleRate⟩

/-- `AudioTrack.mix({other, gainDb})`: no checks at all in the source
(neither channel count nor sample rate); an absent `gainDb` falls to the
transform's default 0. -/
noncomputable def AudioTrack.mix (t other : AudioTrack) (gainDb : Option ℝ) :
    AudioTrack :=
  ⟨mixChannels t.channels other.channels (gainDb.getD 0), t.sampleRate⟩

/-- `AudioTrack.speed({rate})`: passes `rate` straight to `changeSpeed`
with no positivity check. -/
noncomputable def AudioTrack.speed (t : AudioTrack) (rate : ℝ) :
    Except Err AudioTrack :=
  (changeSpeed t.channels rate).map fun chans => ⟨chans, t.sampleRate⟩

/-- `AudioTrack.normalize(opts?)`: passes the options through unchanged
(no defaults are injected at the facade). -/
noncomputable def AudioTrack.normalize (t : AudioTrack)
    (options : Option NormalizeOptions) : Except Err AudioTrack :=
  (normalizeLoudness t.channels t.sampleRate options).map fun chans =>
    ⟨chans, t.sampleRate⟩

/-- `AudioTrack.trimSilence(opts?)`: passes the options through unchanged
(no defaults are injected at the facade). -/
noncomputable def AudioTrack.trimSilence (t : AudioTrack)
    (options : Option TrimSilenceOptions) : AudioTrack :=
  ⟨Neiro.trimSilence t.channels t.sampleRate options, t.sampleRate⟩

/-! ## codecs/wav.ts

Modelled over `ℚ`: every arithmetic step of the source — clamping,
scaling by 32767/32768, `ToInt16` truncation, division by 32768 — is
exact in the JavaScript double (the products fit in 39 mantissa bits),
so the rational model is bit-faithful.  Byte buffers are `List ℕ` whose
entries are bytes; `DataView` multi-byte accesses are little-endian. -/

/-- Truncation toward zero, as ECMAScript `ToInt16` applies to the scaled
sample value passed to `DataView.setInt16`. -/
def ratTrunc (q : ℚ) : ℤ := if 0 ≤ q then ⌊q⌋ else ⌈q⌉

/-- The float→int16 step of `encodeWav`: clamp to [−1, 1], then the
asymmetric scaling `clamped < 0 ? clamped * 32768 : clamped * 32767`,
then truncation. -/
def encodeSample (x : ℚ) : ℤ :=
  let clamped := max (-1) (min 1 x)
  if clamped < 0 then ratTrunc (clamped * 32768) else ratTrunc (clamped * 32767)

/-- `setInt16(offset, v, true)`: the two's-complement low 16 bits of `v`,
low byte first. -/
def i16le (v : ℤ) : List ℕ :=
  [(v % 65536).toNat % 256, (v % 65536).toNat / 256 % 256]

/-- The interleaved 16-bit PCM payload of `encodeWav`: the nested write
loop over sample index `i` (outer) and channel `ch` (inner), two bytes
per sample, in stream order. -/
def wavDataBytes (channels : List (List ℚ)) : List ℕ :=
  (List.range (channels.headD []).length).flatMap fun i =>
    (List.range channels.length).flatMap fun ch =>
      i16le (encodeSample ((channels.getD ch []).getD i 0))

/-- The 44-byte RIFF/WAVE header exactly as `encodeWav` writes it (the
`DataView` writes are contiguous, so the buffer is the concatenation of
the fields; multi-byte fields little-endian):
bytes 0–3 `"RIFF"`, 4–7 `fileSize - 8`, 8–11 `"WAVE"`, 12–15 `"fmt "`,
16–19 chunk size 16, 20–21 PCM format 1, 22–23 channel count,
24–27 sample rate, 28–31 byte rate, 32–33 block align,
34–35 bits per sample 16, 36–39 `"data"`, 40–43 data size. -/
def wavHeaderBytes (numChannels sampleRate numSamples : ℕ) : List ℕ :=
  let dataSize := numSamples * numChannels * 2
  let fileSize := 44 + dataSize
  let byteRate := sampleRate * numChannels * 2
  let blockAlign := numChannels * 2
  [0x52, 0x49, 0x46, 0x46,
    (fileSize - 8) % 256, (fileSize - 8) / 256 % 256,
    (fileSize - 8) / 65536 % 256, (fileSize - 8) / 16777216 % 256,
    0x57, 0x41, 0x56, 0x45,
    0x66, 0x6d, 0x74, 0x20,
    16, 0, 0, 0,
    1, 0,
    numChannels % 256, numChannels / 256 % 256,
    sampleRate % 256, sampleRate / 256 % 256,
    sampleRate / 65536 % 256, sampleRate / 16777216 % 256,
    byteRate % 256, byteRate / 256 % 256,
    byteRate / 65536 % 256, byteRate / 16777216 % 256,
    blockAlign % 256, blockAlign / 256 % 256,
    16, 0,
    0x64, 0x61, 0x74, 0x61,
    dataSize % 256, dataSize / 256 % 256,
    dataSize / 65536 % 256, dataSize / 16777216 % 256]

/-- `encodeWav(channels, sampleRate)`: 44-byte header followed by the
interleaved samples. -/
def encodeWav (channels : List (List ℚ)) (sampleRate : ℕ) : List ℕ :=
  wavHeaderBytes channels.length sampleRate (channels.headD []).length ++
    wavDataBytes channels

/-- `DataView.getUint16(offset, true)` (reads modelled with default 0;
`decodeWav` only issues header reads below offset 44 after checking the
length). -/
def readU16 (b : List ℕ) (offset : ℕ) : ℕ :=
  b.getD offset 0 + 256 * b.getD (offset + 1) 0

/-- `DataView.getUint32(offset, true)`. -/
def readU32 (b : List ℕ) (offset : ℕ) : ℕ :=
  b.getD offset 0 + 256 * b.getD (offset + 1) 0 +
    65536 * b.getD (offset + 2) 0 + 16777216 * b.getD (offset + 3) 0

/-- `DataView.getInt16(offset, true)`: sign-extend the 16-bit value. -/
def readI16 (b : List ℕ) (offset : ℕ) : ℤ :=
  let v := readU16 b offset
  if v < 32768 then (v : ℤ) else (v : ℤ) - 65536

/-- A sample read of the decoder's loop: `DataView.getInt16` throws a
`RangeError` when the access would pass the end of the buffer. -/
def readI16Checked (b : List ℕ) (offset : ℕ) : Except Err ℤ :=
  if offset + 2 ≤ b.length then .ok (readI16 b offset)
  else .error .rangeError

/-- `decodeWav(buffer)`.  The source validates only the length (≥ 44) and
the `RIFF`/`WAVE` tags; `dataSize` (offset 40) is trusted.  `numSamples =
dataSize / (numChannels * bitsPerSample / 8)` is a JavaScript float
division: a zero divisor gives `NaN` (`dataSize = 0`: zero iterations) or
`Infinity` (`new Float32Array(Infinity)` throws a `RangeError`; the
0-channel sub-case would not terminate in JavaScript and is mapped to the
same error); a fractional quotient allocates `⌊q⌋`-sample channels
(`ToIndex` truncates) while the read loop `for (i = 0; i < q; i++)` runs
`⌈q⌉` times, the final iteration's out-of-range typed-array stores being
silently dropped.  Reads happen in stream order, offset `44 + 2·(i·nch +
ch)`, and the first out-of-bounds read raises `RangeError`. -/
def decodeWav (b : List ℕ) : Except Err (List (List ℚ) × ℕ) :=
  if b.length < 44 then .error .invalidWavTooShort
  else if ¬(b.getD 0 0 = 0x52 ∧ b.getD 1 0 = 0x49 ∧ b.getD 2 0 = 0x46 ∧
      b.getD 3 0 = 0x46 ∧ b.getD 8 0 = 0x57 ∧ b.getD 9 0 = 0x41 ∧
      b.getD 10 0 = 0x56 ∧ b.getD 11 0 = 0x45) then
    .error .invalidWavBadHeader
  else
    let numChannels := readU16 b 22
    let sampleRate := readU32 b 24
    let bitsPerSample := readU16 b 34
    let dataSize := readU32 b 40
    if numChannels * bitsPerSample = 0 then
      if dataSize = 0 then .ok (List.replicate numChannels [], sampleRate)
      else .error .rangeError
    else
      let numSamplesQ : ℚ :=
        (dataSize : ℚ) / ((numChannels : ℚ) * ((bitsPerSample : ℚ) / 8))
      let allocLen := (⌊numSamplesQ⌋).toNat
      let iterCount := (⌈numSamplesQ⌉).toNat
      do
        let ints ← (List.range (iterCount * numChannels)).mapM fun j =>
          readI16Checked b (44 + 2 * j)
        return ((List.range numChannels).map fun ch =>
          (List.range allocLen).map fun i =>
            ((ints.getD (i * numChannels + ch) 0 : ℤ) : ℚ) / 32768,
          sampleRate)

/-- A 44-byte buffer that passes `decodeWav`'s initial checks (RIFF/WAVE
tags, mono, 16 bits per sample) but declares `dataSize = 4` while
carrying no payload at all. -/
def c10Buffer : List ℕ :=
  [0x52, 0x49, 0x46, 0x46, 0, 0, 0, 0, 0x57, 0x41, 0x56, 0x45,
    0, 0, 0, 0, 0, 0, 0, 0, 0, 0, 1, 0, 0, 0, 0, 0, 0, 0, 0, 0,
    0, 0, 16, 0, 0, 0, 0, 0, 4, 0, 0, 0]

/-- A consistent 46-byte buffer: same header shape with `dataSize = 2`
and one 16-bit sample actually present. -/
def c10WitnessBuffer : List ℕ :=
  [0x52, 0x49, 0x46, 0x46, 0, 0, 0, 0, 0x57, 0x41, 0x56, 0x45,
    0, 0, 0, 0, 0, 0, 0, 0, 0, 0, 1, 0, 0, 0, 0, 0, 0, 0, 0, 0,
    0, 0, 16, 0, 0, 0, 0, 0, 2, 0, 0, 0, 7, 0]

/-!
# Theorems
-/

theorem BiquadFilter.stateAfter_cons (f : BiquadFilter) (s : BiquadState)
    (x : ℝ) (l : List ℝ) :
    f.stateAfter s (x :: l) = f.stateAfter (f.process s x).2 l := rfl

/-- C6: `processBuffer` is bit-equal to sequential processing: the i-th
output is the value of the i-th `process` call starting from the same
state, and the final state is the state after the `n` sequential calls. -/
theorem biquad_processBuffer_eq_sequential (f : BiquadFilter)
    (s : BiquadState) (l : List ℝ) :
    (f.processBuffer s l).1 =
        (List.range l.length).map (f.seqOutput s l) ∧
      (f.processBuffer s l).2 = f.stateAfter s l := by
  induction l generalizing s with
  | nil => exact ⟨rfl, rfl⟩
  | cons x rest ih =>
    obtain ⟨ih1, ih2⟩ := ih (f.process s x).2
    constructor
    · show (f.process s x).1 :: (f.processBuffer (f.process s x).2 rest).1 = _
      rw [ih1]
      rw [List.length_cons, List.range_succ_eq_map, List.map_cons,
        List.map_map]
      congr 1
    · show (f.processBuffer (f.process s x).2 rest).2 = _
      rw [ih2, BiquadFilter.stateAfter_cons]

theorem le_peak_update (pk v : ℝ) : pk ≤ if pk < v then v else pk := by
  by_cases h : pk < v
  · simpa [h] using le_of_lt h
  · simp [h]

theorem val_le_peak_update (pk v : ℝ) : v ≤ if pk < v then v else pk := by
  by_cases h : pk < v
  · simp [h]
  · simpa [h] using le_of_not_lt h

/-- A fold whose step never decreases the accumulator dominates its
initial value. -/
theorem foldl_le_of_le_step {α : Type} (g : ℝ → α → ℝ)
    (h : ∀ acc x, acc ≤ g acc x) :
    ∀ (l : List α) (acc : ℝ), acc ≤ l.foldl g acc
  | [], acc => le_refl acc
  | x :: l, acc =>
    le_trans (h acc x) (foldl_le_of_le_step g h l (g acc x))

/-- A fold whose step never decreases the accumulator, and whose step at
`x` dominates `v x`, dominates `v x` for every member `x` of the list. -/
theorem le_foldl_of_mem {α : Type} (g : ℝ → α → ℝ) (v : α → ℝ)
    (hstep : ∀ acc x, acc ≤ g acc x) (hval : ∀ acc x, v x ≤ g acc x) :
    ∀ (l : List α) (acc : ℝ) (x : α), x ∈ l → v x ≤ l.foldl g acc := by
  intro l
  induction l with
  | nil => intro acc x hx; cases hx
  | cons y ys ih =>
    intro acc x hx
    rcases List.mem_cons.mp hx with h | h
    · subst h
      exact le_trans (hval acc x) (foldl_le_of_le_step g hstep ys (g acc x))
    · exact ih (g acc y) x h

theorem le_truePeakStep (samples : List ℝ) (peak : ℝ) (n : ℕ) :
    peak ≤ truePeakStep samples peak n := by
  unfold truePeakStep
  have h1 : peak ≤ if peak < |samples.getD n 0| then |samples.getD n 0| else peak :=
    le_peak_update _ _
  split
  · exact h1
  · exact le_trans h1
      (foldl_le_of_le_step _ (fun acc p => le_peak_update _ _) _ _)

theorem abs_getD_le_truePeakStep (samples : List ℝ) (peak : ℝ) (n : ℕ) :
    |samples.getD n 0| ≤ truePeakStep samples peak n := by
  unfold truePeakStep
  have h1 : |samples.getD n 0| ≤
      if peak < |samples.getD n 0| then |samples.getD n 0| else peak :=
    val_le_peak_update _ _
  split
  · exact h1
  · exact le_trans h1
      (foldl_le_of_le_step _ (fun acc p => le_peak_update _ _) _ _)

/-- C9: the measured true peak never underestimates the raw sample peak:
it dominates `|x[n]|` at every index (an out-of-range read is modelled as
0, which the result also dominates), it is 0 on an empty buffer, and the
Track-level `truePeak()` is the maximum (fold of `max` from 0) of the
per-channel true peaks, dominating each channel's peak. -/
theorem truePeak_lower_bound_and_stereo_max (samples : List ℝ) (rate : ℕ)
    (n : ℕ) (t : AudioTrack) :
    |samples.getD n 0| ≤ measureTruePeak samples rate ∧
      measureTruePeak [] rate = 0 ∧
      t.truePeak =
        (t.channels.map fun ch => measureTruePeak ch t.sampleRate).foldl max 0 ∧
      ∀ i : ℕ, measureTruePeak (t.channels.getD i []) t.sampleRate ≤ t.truePeak := by
  have habs : ∀ (xs : List ℝ) (r : ℕ) (m : ℕ),
      |xs.getD m 0| ≤ measureTruePeak xs r := by
    intro xs r m
    unfold measureTruePeak
    split
    · next hlen =>
      rw [List.length_eq_zero.mp hlen]
      simp
    · next hlen =>
      by_cases hm : m < xs.length
      · exact le_foldl_of_mem (truePeakStep xs) (fun k => |xs.getD k 0|)
          (le_truePeakStep xs) (fun acc k => abs_getD_le_truePeakStep xs acc k)
          (List.range xs.length) 0 m (List.mem_range.mpr hm)
      · rw [List.getD_eq_default _ _ (le_of_not_lt hm)]
        simpa using
          foldl_le_of_le_step (truePeakStep xs) (le_truePeakStep xs)
            (List.range xs.length) 0
  have hzero : ∀ (t' : AudioTrack), (0 : ℝ) ≤ t'.truePeak := by
    intro t'
    exact foldl_le_of_le_step _ (fun acc ch => le_peak_update _ _) _ 0
  refine ⟨habs samples rate n, rfl, ?_, ?_⟩
  · show t.channels.foldl _ 0 = _
    rw [List.foldl_map]
    congr 1
    funext pk ch
    show (if pk < measureTruePeak ch t.sampleRate then
        measureTruePeak ch t.sampleRate else pk) = _
    rw [max_def]
    rcases lt_trichotomy pk (measureTruePeak ch t.sampleRate) with h | h | h
    · rw [if_pos h, if_pos (le_of_lt h)]
    · rw [if_neg (h ▸ lt_irrefl pk), if_pos (le_of_eq h), h]
    · rw [if_neg (not_lt.mpr (le_of_lt h)), if_neg (not_le.mpr h)]
  · intro i
    by_cases hi : i < t.channels.length
    · have hmem : t.channels.getD i [] ∈ t.channels := by
        rw [List.getD_eq_getElem _ _ hi]
        exact List.getElem_mem _
      exact le_foldl_of_mem _ (fun ch => measureTruePeak ch t.sampleRate)
        (fun acc ch => le_peak_update _ _) (fun acc ch => val_le_peak_update _ _)
        t.channels 0 _ hmem
    · rw [List.getD_eq_default _ _ (le_of_not_lt hi)]
      show measureTruePeak [] t.sampleRate ≤ _
      unfold measureTruePeak
      simpa using hzero t

theorem BiquadFilter.processBuffer_length (f : BiquadFilter)
    (s : BiquadState) (l : List ℝ) :
    (f.processBuffer s l).1.length = l.length := by
  induction l generalizing s with
  | nil => rfl
  | cons x rest ih =>
    show ((f.process s x).1 :: (f.processBuffer (f.process s x).2 rest).1).length = _
    simp [ih]

theorem BiquadFilter.process_zero (f : BiquadFilter) :
    f.process biquadZeroState 0 = (0, biquadZeroState) := by
  unfold BiquadFilter.process biquadZeroState
  simp

theorem BiquadFilter.processBuffer_zero (f : BiquadFilter) (l : List ℝ)
    (h : ∀ x ∈ l, x = 0) :
    ∀ y ∈ (f.processBuffer biquadZeroState l).1, y = 0 := by
  induction l with
  | nil => intro y hy; cases hy
  | cons x rest ih =>
    have hx : x = 0 := h x (List.mem_cons_self _ _)
    subst hx
    intro y hy
    have hstep := f.process_zero
    have : (f.processBuffer biquadZeroState (0 :: rest)).1 =
        0 :: (f.processBuffer biquadZeroState rest).1 := by
      show ((f.process biquadZeroState 0).1 ::
          (f.processBuffer (f.process biquadZeroState 0).2 rest).1) = _
      rw [hstep]
    rw [this] at hy
    rcases List.mem_cons.mp hy with h0 | h0
    · exact h0
    · exact ih (fun z hz => h z (List.mem_cons_of_mem _ hz)) y h0

/-- For a supported rate, `applyKWeighting` succeeds, preserves the
buffer length, and maps an all-zero buffer to an all-zero buffer. -/
theorem applyKWeighting_supported (samples : List ℝ) {rate : ℕ}
    (h : rate = 44100 ∨ rate = 48000) :
    ∃ out, applyKWeighting samples rate = .ok out ∧
      out.length = samples.length ∧
      ((∀ x ∈ samples, x = 0) → ∀ y ∈ out, y = 0) := by
  obtain ⟨fp, hfp⟩ : ∃ fp, createKWeightingFilters rate = .ok fp := by
    rcases h with h | h <;> subst h
    · exact ⟨_, rfl⟩
    · exact ⟨_, rfl⟩
  refine ⟨(fp.2.processBuffer biquadZeroState
      (fp.1.processBuffer biquadZeroState samples).1).1, ?_, ?_, ?_⟩
  · unfold applyKWeighting
    rw [hfp]
    rfl
  · rw [BiquadFilter.processBuffer_length, BiquadFilter.processBuffer_length]
  · intro hz
    exact fp.2.processBuffer_zero _ (fp.1.processBuffer_zero samples hz)

/-- `mapM` of `applyKWeighting` over the channels at a supported rate:
succeeds, preserves the list of lengths, preserves all-zeroness. -/
theorem mapM_applyKWeighting_supported (channels : List (List ℝ))
    {rate : ℕ} (h : rate = 44100 ∨ rate = 48000) :
    ∃ out, (channels.mapM fun ch => applyKWeighting ch rate) = .ok out ∧
      out.map List.length = channels.map List.length ∧
      ((∀ ch ∈ channels, ∀ x ∈ ch, x = 0) → ∀ ch ∈ out, ∀ y ∈ ch, y = 0) := by
  induction channels with
  | nil => exact ⟨[], rfl, rfl, fun _ ch hc => absurd hc (List.not_mem_nil ch)⟩
  | cons c cs ih =>
    obtain ⟨o, ho, holen, hoz⟩ := applyKWeighting_supported c h
    obtain ⟨os, hos, hoslen, hosz⟩ := ih
    refine ⟨o :: os, ?_, ?_, ?_⟩
    · rw [List.mapM_cons, ho, hos]
      rfl
    · simp [holen, hoslen]
    · intro hz ch hch
      rcases List.mem_cons.mp hch with h0 | h0
      · subst h0
        exact hoz (hz c (List.mem_cons_self _ _))
      · exact hosz (fun d hd => hz d (List.mem_cons_of_mem _ hd)) ch h0

theorem foldl_fixed {α β : Type} (g : β → α → β) (l : List α)
    (h : ∀ acc x, x ∈ l → g acc x = acc) (acc : β) : l.foldl g acc = acc := by
  induction l generalizing acc with
  | nil => rfl
  | cons x rest ih =>
    rw [List.foldl_cons, h acc x (List.mem_cons_self _ _)]
    exact ih (fun a z hz => h a z (List.mem_cons_of_mem _ hz)) acc

theorem getD_zero_of_all_zero (l : List ℝ) (h : ∀ x ∈ l, x = 0) (i : ℕ) :
    l.getD i 0 = 0 := by
  by_cases hi : i < l.length
  · rw [List.getD_eq_getElem _ _ hi]
    exact h _ (List.getElem_mem _)
  · exact List.getD_eq_default _ _ (le_of_not_lt hi)

/-- Every block mean square of an all-zero channel set is 0. -/
theorem calculateBlockMeanSquares_zero (channels : List (List ℝ))
    (rate : ℕ) (hz : ∀ ch ∈ channels, ∀ x ∈ ch, x = 0) :
    ∀ b ∈ calculateBlockMeanSquares channels rate, b = 0 := by
  intro b hb
  unfold calculateBlockMeanSquares at hb
  dsimp only at hb
  split at hb
  · cases hb
  · obtain ⟨j, _, hj⟩ := List.mem_map.mp hb
    rw [← hj]
    apply foldl_fixed
    intro acc ch _
    dsimp only
    split
    · rfl
    · have hsum : (List.range (2 * rate / 5)).foldl
          (fun s i => s + (channels.getD ch []).getD (j * (2 * rate / 5 / 4) + i) 0 *
            (channels.getD ch []).getD (j * (2 * rate / 5 / 4) + i) 0) 0 = 0 := by
        apply foldl_fixed
        intro s i _
        have hchz : ∀ x ∈ channels.getD ch [], x = 0 := by
          by_cases hc : ch < channels.length
          · rw [List.getD_eq_getElem _ _ hc]
            exact hz _ (List.getElem_mem _)
          · rw [List.getD_eq_default _ _ (le_of_not_lt hc)]
            intro x hx; cases hx
        rw [getD_zero_of_all_zero _ hchz]
        ring
      rw [hsum]
      simp

/-- C8: for a supported rate, `calculateIntegratedLoudness` returns −∞
(`none`) whenever the first channel is shorter than
`blockSize = ⌊0.4·rate⌋ = 2·rate/5` samples and whenever every sample is
zero; and for non-empty channels at any other rate it throws
`UnsupportedSampleRate`. -/
theorem integratedLoudness_edge_cases (channels : List (List ℝ)) (rate : ℕ) :
    ((rate = 44100 ∨ rate = 48000) →
        (channels.headD []).length < 2 * rate / 5 →
        calculateIntegratedLoudness channels rate = .ok none) ∧
      ((rate = 44100 ∨ rate = 48000) →
        (∀ ch ∈ channels, ∀ x ∈ ch, x = 0) →
        calculateIntegratedLoudness channels rate = .ok none) ∧
      (channels ≠ [] → rate ≠ 44100 → rate ≠ 48000 →
        calculateIntegratedLoudness channels rate = .error .unsupportedSampleRate) := by
  refine ⟨?_, ?_, ?_⟩
  · intro hrate hshort
    cases hch : channels with
    | nil => rw [calculateIntegratedLoudness, if_pos rfl]
    | cons c cs =>
      subst hch
      obtain ⟨out, hout, hlen, _⟩ := mapM_applyKWeighting_supported (c :: cs) hrate
      rw [calculateIntegratedLoudness, if_neg (by simp)]
      show ((c :: cs).mapM fun ch => applyKWeighting ch rate) >>= _ = _
      rw [hout]
      show (if calculateBlockMeanSquares out rate = [] then _ else _) = _
      have hblocks : calculateBlockMeanSquares out rate = [] := by
        unfold calculateBlockMeanSquares
        dsimp only
        rw [if_pos]
        have hheads : (out.headD []).length = c.length := by
          cases out with
          | nil => cases hlen
          | cons o os =>
            simpa using congrArg (fun l => l.headD 0) hlen
        rw [hheads]
        simpa using hshort
      rw [if_pos hblocks]
  · intro hrate hz
    cases hch : channels with
    | nil => rw [calculateIntegratedLoudness, if_pos rfl]
    | cons c cs =>
      subst hch
      obtain ⟨out, hout, hlen, houtz⟩ := mapM_applyKWeighting_supported (c :: cs) hrate
      rw [calculateIntegratedLoudness, if_neg (by simp)]
      show ((c :: cs).mapM fun ch => applyKWeighting ch rate) >>= _ = _
      rw [hout]
      have hbz : ∀ b ∈ calculateBlockMeanSquares out rate, b = 0 :=
        calculateBlockMeanSquares_zero out rate (houtz hz)
      show (if calculateBlockMeanSquares out rate = [] then _ else _) = _
      by_cases hnil : calculateBlockMeanSquares out rate = []
      · rw [if_pos hnil]
      · rw [if_neg hnil]
        have hgate : applyGating (calculateBlockMeanSquares out rate) = 0 := by
          unfold applyGating
          rw [if_neg hnil]
          dsimp only
          rw [if_pos]
          apply List.filter_eq_nil_iff.mpr
          intro b hb
          rw [hbz b hb]
          simp only [decide_eq_true_eq, not_lt]
          exact le_of_lt (Real.rpow_pos_of_pos (by norm_num) _)
        rw [if_pos hgate]
  · intro hne h44 h48
    cases hch : channels with
    | nil => exact absurd hch hne
    | cons c cs =>
      subst hch
      rw [calculateIntegratedLoudness, if_neg (by simp)]
      show ((c :: cs).mapM fun ch => applyKWeighting ch rate) >>= _ = _
      have hkw : applyKWeighting c rate = .error .unsupportedSampleRate := by
        unfold applyKWeighting createKWeightingFilters
        rw [if_neg h48, if_neg h44]
        rfl
      rw [List.mapM_cons, hkw]
      rfl

/-- Witness for C8 at concrete inputs: a one-sample zero track at
44 100 Hz is both shorter than 400 ms and all-zero (−∞ both ways), and
22 050 Hz is rejected. -/
theorem integratedLoudness_edge_cases_witness :
    calculateIntegratedLoudness [[(0 : ℝ)]] 44100 = .ok none ∧
      calculateIntegratedLoudness [[(0 : ℝ)], [(0 : ℝ)]] 48000 = .ok none ∧
      calculateIntegratedLoudness [[(0 : ℝ)]] 22050 = .error .unsupportedSampleRate :=
  ⟨(integratedLoudness_edge_cases [[(0 : ℝ)]] 44100).1 (Or.inl rfl)
      (by norm_num [List.headD]),
    (integratedLoudness_edge_cases [[(0 : ℝ)], [(0 : ℝ)]] 48000).2.1 (Or.inr rfl)
      (by intro ch hch x hx; simp at hch; simp [hch] at hx; exact hx),
    (integratedLoudness_edge_cases [[(0 : ℝ)]] 22050).2.2 (by simp)
      (by norm_num) (by norm_num)⟩

theorem length_i16le (v : ℤ) : (i16le v).length = 2 := rfl

theorem length_flatMap_uniform {α β : Type} (l : List α) (f : α → List β)
    (s : ℕ) (h : ∀ x ∈ l, (f x).length = s) :
    (l.flatMap f).length = s * l.length := by
  induction l with
  | nil => simp
  | cons x xs ih =>
    rw [List.flatMap_cons, List.length_append, h x (List.mem_cons_self _ _),
      ih (fun y hy => h y (List.mem_cons_of_mem _ hy))]
    simp [Nat.mul_succ]
    ring

theorem getD_range {n k : ℕ} (hk : k < n) : (List.range n).getD k 0 = k := by
  rw [List.getD_eq_getElem _ _ (by simpa using hk)]
  simp

theorem getD_map_range {α : Type} (f : ℕ → α) (d : α) {n k : ℕ}
    (hk : k < n) : ((List.range n).map f).getD k d = f k := by
  rw [List.getD_eq_getElem _ _ (by simpa using hk)]
  simp

/-- Indexing into a flatMap of uniform-length chunks. -/
theorem getD_flatMap_uniform {α β : Type} (f : α → List β) (s : ℕ) (d : β)
    (a : α) : ∀ (l : List α) (k r : ℕ), (∀ x ∈ l, (f x).length = s) →
    k < l.length → r < s →
    (l.flatMap f).getD (s * k + r) d = (f (l.getD k a)).getD r d := by
  intro l
  induction l with
  | nil => intro k r _ hk _; cases hk
  | cons x xs ih =>
    intro k r hs hk hr
    rw [List.flatMap_cons]
    cases k with
    | zero =>
      rw [Nat.mul_zero, Nat.zero_add,
        List.getD_append _ _ _ _ (by rw [hs x (List.mem_cons_self _ _)]; exact hr)]
      rfl
    | succ k' =>
      rw [List.getD_append_right _ _ _ _
          (by rw [hs x (List.mem_cons_self _ _)]; nlinarith [Nat.succ_le_of_lt (Nat.zero_lt_succ k')])]
      rw [hs x (List.mem_cons_self _ _)]
      have harith : s * (k' + 1) + r - s = s * k' + r := by
        have : s * (k' + 1) = s * k' + s := by ring
        omega
      rw [harith]
      exact ih k' r (fun y hy => hs y (List.mem_cons_of_mem _ hy))
        (Nat.lt_of_succ_lt_succ hk) hr

/-- `mapM` over `Except` succeeds pointwise. -/
theorem mapM_ok_of_eq_ok {α β ε : Type} (f : α → Except ε β) (g : α → β) :
    ∀ (l : List α), (∀ x ∈ l, f x = .ok (g x)) → l.mapM f = .ok (l.map g) := by
  intro l
  induction l with
  | nil => intro _; rfl
  | cons x xs ih =>
    intro h
    rw [List.mapM_cons, h x (List.mem_cons_self _ _),
      ih (fun y hy => h y (List.mem_cons_of_mem _ hy))]
    rfl

/-- Reading back two little-endian two's-complement bytes recovers any
int16-range value. -/
theorem readI16_i16le_getD (b : List ℕ) (o : ℕ) (v : ℤ)
    (h1 : -32768 ≤ v) (h2 : v ≤ 32767)
    (hb0 : b.getD o 0 = (i16le v).getD 0 0)
    (hb1 : b.getD (o + 1) 0 = (i16le v).getD 1 0) :
    readI16 b o = v := by
  unfold readI16 readU16
  rw [hb0, hb1]
  unfold i16le
  simp only [List.getD_cons_zero, List.getD_cons_succ]
  have hw : ((v % 65536).toNat : ℤ) = v % 65536 :=
    Int.toNat_of_nonneg (Int.emod_nonneg v (by norm_num))
  have hcomb : (v % 65536).toNat % 256 + 256 * ((v % 65536).toNat / 256 % 256) =
      (v % 65536).toNat := by omega
  rw [hcomb]
  split
  · next hlt => omega
  · next hge => omega

/-- The stored int16 value of any sample is within [−32768, 32767]
(thanks to the clamp, with no hypothesis on the sample). -/
theorem encodeSample_bounds (x : ℚ) :
    -32768 ≤ encodeSample x ∧ encodeSample x ≤ 32767 := by
  unfold encodeSample ratTrunc
  have hc1 : (-1 : ℚ) ≤ max (-1) (min 1 x) := le_max_left _ _
  have hc2 : max (-1) (min 1 x) ≤ 1 :=
    max_le (by norm_num) (min_le_left _ _)
  dsimp only
  by_cases hneg : max (-1) (min 1 x) < 0
  · rw [if_pos hneg, if_neg (by nlinarith)]
    constructor
    · have := Int.ceil_mono (show ((-32768 : ℤ) : ℚ) ≤ max (-1) (min 1 x) * 32768 by push_cast; nlinarith)
      rwa [Int.ceil_intCast] at this
    · have : (⌈max (-1) (min 1 x) * 32768⌉ : ℤ) ≤ ⌈(0 : ℚ)⌉ :=
        Int.ceil_mono (by nlinarith)
      simpa using le_trans this (by norm_num)
  · push_neg at hneg
    rw [if_neg (by push_neg; exact hneg), if_pos (by nlinarith)]
    constructor
    · have : (⌊(0 : ℚ)⌋ : ℤ) ≤ ⌊max (-1) (min 1 x) * 32767⌋ :=
        Int.floor_mono (by nlinarith)
      simp at this
      omega
    · have := Int.floor_mono (show max (-1) (min 1 x) * 32767 ≤ ((32767 : ℤ) : ℚ) by push_cast; nlinarith)
      rwa [Int.floor_intCast] at this

/-- Per-sample quantization error of the encode/decode pair: at most
`2/32768` for in-range samples (the positive side loses up to `x/32768`
from the asymmetric 32767 scaling plus up to `1/32768` from truncation;
the negative side at most `1/32768`). -/
theorem encodeSample_error_bound (x : ℚ) (h1 : -1 ≤ x) (h2 : x ≤ 1) :
    |((encodeSample x : ℤ) : ℚ) / 32768 - x| ≤ 2 / 32768 := by
  have hc : max (-1) (min 1 x) = x := by
    rw [min_eq_right h2, max_eq_right h1]
  unfold encodeSample ratTrunc
  rw [hc]
  by_cases hx : x < 0
  · rw [if_pos hx, if_neg (by nlinarith)]
    have h3 : x * 32768 ≤ (⌈x * 32768⌉ : ℚ) := Int.le_ceil _
    have h4 : (⌈x * 32768⌉ : ℚ) < x * 32768 + 1 := Int.ceil_lt_add_one _
    rw [abs_le]
    constructor <;> nlinarith
  · rw [if_neg hx, if_pos (by push_neg at hx; nlinarith)]
    have h3 : (⌊x * 32767⌋ : ℚ) ≤ x * 32767 := Int.floor_le _
    have h4 : x * 32767 - 1 < (⌊x * 32767⌋ : ℚ) := Int.sub_one_lt_floor _
    push_neg at hx
    rw [abs_le]
    constructor <;> nlinarith

theorem length_wavHeaderBytes (nch r N : ℕ) :
    (wavHeaderBytes nch r N).length = 44 := rfl

theorem wavDataBytes_inner_length (channels : List (List ℚ)) (i : ℕ) :
    ((List.range channels.length).flatMap fun ch =>
      i16le (encodeSample ((channels.getD ch []).getD i 0))).length =
      2 * channels.length := by
  rw [length_flatMap_uniform _ _ 2 fun ch _ => length_i16le _,
    List.length_range]

theorem length_wavDataBytes (channels : List (List ℚ)) :
    (wavDataBytes channels).length =
      2 * channels.length * (channels.headD []).length := by
  unfold wavDataBytes
  rw [length_flatMap_uniform _ _ (2 * channels.length)
    (fun i _ => wavDataBytes_inner_length channels i), List.length_range]

theorem length_encodeWav (channels : List (List ℚ)) (rate : ℕ) :
    (encodeWav channels rate).length =
      44 + 2 * channels.length * (channels.headD []).length := by
  unfold encodeWav
  rw [List.length_append, length_wavHeaderBytes, length_wavDataBytes]

theorem encodeWav_tags (channels : List (List ℚ)) (rate : ℕ) :
    (encodeWav channels rate).getD 0 0 = 0x52 ∧
      (encodeWav channels rate).getD 1 0 = 0x49 ∧
      (encodeWav channels rate).getD 2 0 = 0x46 ∧
      (encodeWav channels rate).getD 3 0 = 0x46 ∧
      (encodeWav channels rate).getD 8 0 = 0x57 ∧
      (encodeWav channels rate).getD 9 0 = 0x41 ∧
      (encodeWav channels rate).getD 10 0 = 0x56 ∧
      (encodeWav channels rate).getD 11 0 = 0x45 := by
  unfold encodeWav wavHeaderBytes
  dsimp only
  refine ⟨?_, ?_, ?_, ?_, ?_, ?_, ?_, ?_⟩ <;> simp

theorem encodeWav_read_nch (channels : List (List ℚ)) (rate : ℕ)
    (h : channels.length < 65536) :
    readU16 (encodeWav channels rate) 22 = channels.length := by
  unfold readU16 encodeWav wavHeaderBytes
  dsimp only
  simp
  omega

theorem encodeWav_read_rate (channels : List (List ℚ)) (rate : ℕ)
    (h : rate < 4294967296) :
    readU32 (encodeWav channels rate) 24 = rate := by
  unfold readU32 encodeWav wavHeaderBytes
  dsimp only
  simp
  omega

theorem encodeWav_read_bits (channels : List (List ℚ)) (rate : ℕ) :
    readU16 (encodeWav channels rate) 34 = 16 := by
  unfold readU16 encodeWav wavHeaderBytes
  dsimp only
  simp

theorem encodeWav_read_dataSize (channels : List (List ℚ)) (rate : ℕ)
    (h : (channels.headD []).length * channels.length * 2 < 4294967296) :
    readU32 (encodeWav channels rate) 40 =
      (channels.headD []).length * channels.length * 2 := by
  unfold readU32 encodeWav wavHeaderBytes
  dsimp only
  simp [-List.headD_eq_head?_getD]
  omega

theorem encodeWav_getD_data (channels : List (List ℚ)) (rate : ℕ) (k : ℕ) :
    (encodeWav channels rate).getD (44 + k) 0 =
      (wavDataBytes channels).getD k 0 := by
  unfold encodeWav
  rw [List.getD_append_right _ _ _ _ (by rw [length_wavHeaderBytes]; omega)]
  rw [length_wavHeaderBytes]
  congr 1
  omega

theorem wavDataBytes_getD (channels : List (List ℚ)) {i ch b : ℕ}
    (hi : i < (channels.headD []).length) (hch : ch < channels.length)
    (hb : b < 2) :
    (wavDataBytes channels).getD (2 * (i * channels.length + ch) + b) 0 =
      (i16le (encodeSample ((channels.getD ch []).getD i 0))).getD b 0 := by
  unfold wavDataBytes
  have hidx : 2 * (i * channels.length + ch) + b =
      2 * channels.length * i + (2 * ch + b) := by ring
  rw [hidx]
  rw [getD_flatMap_uniform _ (2 * channels.length) 0 0 _ i (2 * ch + b)
    (fun x _ => wavDataBytes_inner_length channels x)
    (by simpa using hi) (by omega)]
  rw [getD_range hi]
  rw [getD_flatMap_uniform _ 2 0 0 _ ch b (fun x _ => length_i16le _)
    (by simpa using hch) hb]
  rw [getD_range hch]

/-- Reading back the data region of an encoded WAV at the sample at flat
position `i·nch + ch` yields exactly the stored int16 value. -/
theorem encodeWav_readI16_data (channels : List (List ℚ)) (rate : ℕ)
    {i ch : ℕ} (hi : i < (channels.headD []).length)
    (hch : ch < channels.length) :
    readI16 (encodeWav channels rate) (44 + 2 * (i * channels.length + ch)) =
      encodeSample ((channels.getD ch []).getD i 0) := by
  apply readI16_i16le_getD _ _ _
    (encodeSample_bounds ((channels.getD ch []).getD i 0)).1
    (encodeSample_bounds ((channels.getD ch []).getD i 0)).2
  · rw [encodeWav_getD_data]
    have h0 : 2 * (i * channels.length + ch) =
        2 * (i * channels.length + ch) + 0 := by omega
    rw [h0, wavDataBytes_getD channels hi hch (by norm_num)]
  · have h1 : 44 + 2 * (i * channels.length + ch) + 1 =
        44 + (2 * (i * channels.length + ch) + 1) := by omega
    rw [h1, encodeWav_getD_data,
      wavDataBytes_getD channels hi hch (by norm_num)]

/-- Decoding an encoded WAV yields exactly the per-sample
encode/scale-back values (for any channel set with a representable shape). -/
theorem decodeWav_encodeWav (channels : List (List ℚ)) (rate : ℕ)
    (hnchpos : 0 < channels.length)
    (hnchlt : channels.length < 65536)
    (hrate : rate < 4294967296)
    (hsize : (channels.headD []).length * channels.length * 2 < 4294967296) :
    decodeWav (encodeWav channels rate) =
      .ok ((List.range channels.length).map fun ch =>
        (List.range (channels.headD []).length).map fun i =>
          ((encodeSample ((channels.getD ch []).getD i 0) : ℤ) : ℚ) / 32768,
        rate) := by
  unfold decodeWav
  rw [if_neg (by rw [length_encodeWav]; omega)]
  rw [if_neg (not_not_intro (encodeWav_tags channels rate))]
  dsimp only
  rw [encodeWav_read_nch channels rate hnchlt,
    encodeWav_read_rate channels rate hrate,
    encodeWav_read_bits channels rate,
    encodeWav_read_dataSize channels rate hsize]
  rw [if_neg (by omega)]
  have hq : (((channels.headD []).length * channels.length * 2 : ℕ) : ℚ) /
      ((channels.length : ℚ) * (((16 : ℕ) : ℚ) / 8)) =
      (((channels.headD []).length : ℕ) : ℚ) := by
    have hne0 : ((channels.length : ℕ) : ℚ) ≠ 0 := by
      exact_mod_cast Nat.pos_iff_ne_zero.mp hnchpos
    push_cast
    field_simp
    ring
  rw [hq, Int.floor_natCast, Int.ceil_natCast, Int.toNat_natCast]
  have hreads : ∀ j ∈ List.range ((channels.headD []).length * channels.length),
      readI16Checked (encodeWav channels rate) (44 + 2 * j) =
        .ok (readI16 (encodeWav channels rate) (44 + 2 * j)) := by
    intro j hj
    have hm : j < (channels.headD []).length * channels.length :=
      List.mem_range.mp hj
    unfold readI16Checked
    rw [if_pos]
    rw [length_encodeWav]
    have hcomm : 2 * channels.length * (channels.headD []).length =
        2 * ((channels.headD []).length * channels.length) := by ring
    omega
  rw [mapM_ok_of_eq_ok _ _ _ hreads]
  show Except.ok _ = _
  congr 1
  refine Prod.ext ?_ rfl
  show (List.range channels.length).map _ = _
  apply List.map_congr_left
  intro ch hch
  apply List.map_congr_left
  intro i hi
  have hch' : ch < channels.length := List.mem_range.mp hch
  have hi' : i < (channels.headD []).length := List.mem_range.mp hi
  have hflat : i * channels.length + ch <
      (channels.headD []).length * channels.length := by
    calc i * channels.length + ch < i * channels.length + channels.length :=
          Nat.add_lt_add_left hch' _
      _ = (i + 1) * channels.length := by ring
      _ ≤ (channels.headD []).length * channels.length :=
          Nat.mul_le_mul_right _ hi'
  rw [getD_map_range _ _ hflat]
  rw [encodeWav_readI16_data channels rate hi' hch']

/-- C7 amended: the WAV round trip preserves the sample rate, the channel
count and the channel lengths, and every decoded sample is within
`2/32768` of the original (not `1/32768`: the positive side loses up to
`x/32768` from the asymmetric scale-by-32767/divide-by-32768 pair on top
of up to `1/32768` of truncation). -/
theorem wav_roundtrip_within_two_ulp (channels : List (List ℚ)) (rate : ℕ)
    (hnch : channels.length = 1 ∨ channels.length = 2)
    (heq : ∀ ch ∈ channels, ch.length = (channels.headD []).length)
    (hrange : ∀ ch ∈ channels, ∀ x ∈ ch, -1 ≤ x ∧ x ≤ 1)
    (hrate : rate < 4294967296)
    (hsize : (channels.headD []).length * channels.length * 2 < 4294967296) :
    ∃ decoded : List (List ℚ),
      decodeWav (encodeWav channels rate) = .ok (decoded, rate) ∧
        decoded.length = channels.length ∧
        (∀ ch ∈ decoded, ch.length = (channels.headD []).length) ∧
        ∀ ch i : ℕ,
          |(decoded.getD ch []).getD i 0 - (channels.getD ch []).getD i 0| ≤
            2 / 32768 := by
  have hnchpos : 0 < channels.length := by rcases hnch with h | h <;> omega
  have hnchlt : channels.length < 65536 := by rcases hnch with h | h <;> omega
  refine ⟨(List.range channels.length).map fun ch =>
    (List.range (channels.headD []).length).map fun i =>
      ((encodeSample ((channels.getD ch []).getD i 0) : ℤ) : ℚ) / 32768,
    decodeWav_encodeWav channels rate hnchpos hnchlt hrate hsize, ?_, ?_, ?_⟩
  · simp
  · intro ch hch
    obtain ⟨c, _, hc⟩ := List.mem_map.mp hch
    rw [← hc]
    simp
  · intro ch i
    by_cases hch : ch < channels.length
    · rw [getD_map_range _ _ hch]
      have hmem : channels.getD ch [] ∈ channels := by
        rw [List.getD_eq_getElem _ _ hch]
        exact List.getElem_mem _
      by_cases hi : i < (channels.headD []).length
      · rw [getD_map_range _ _ hi]
        have hx : -1 ≤ (channels.getD ch []).getD i 0 ∧
            (channels.getD ch []).getD i 0 ≤ 1 := by
          by_cases him : i < (channels.getD ch []).length
          · rw [List.getD_eq_getElem _ _ him]
            exact hrange _ hmem _ (List.getElem_mem _)
          · rw [List.getD_eq_default _ _ (le_of_not_lt him)]
            norm_num
        exact encodeSample_error_bound _ hx.1 hx.2
      · rw [List.getD_eq_default _ _ (by simpa using le_of_not_lt hi)]
        rw [List.getD_eq_default ((channels.getD ch [])) _
          (by rw [heq _ hmem]; exact le_of_not_lt hi)]
        norm_num
    · have h1 : ((List.range channels.length).map fun ch =>
          (List.range (channels.headD []).length).map fun i =>
            ((encodeSample ((channels.getD ch []).getD i 0) : ℤ) : ℚ) /
              32768).getD ch [] = [] :=
        List.getD_eq_default _ _
          (by simp only [List.length_map, List.length_range]
              exact le_of_not_lt hch)
      have h2 : channels.getD ch [] = [] :=
        List.getD_eq_default _ _ (le_of_not_lt hch)
      rw [h1, h2]
      norm_num

/-- C7 counterexample: at the in-range sample `65535/65536` the round
trip error is `3/65536 = 1.5/32768 > 1/32768` (the encoder scales
positives by 32767 and truncates, the decoder divides by 32768). -/
theorem wav_roundtrip_error_exceeds_one_ulp :
    decodeWav (encodeWav [[(65535 : ℚ)/65536]] 44100) =
        .ok ([[(16383 : ℚ)/16384]], 44100) ∧
      |(16383 : ℚ)/16384 - 65535/65536| > 1/32768 := by
  constructor
  · rw [decodeWav_encodeWav [[(65535 : ℚ)/65536]] 44100 (by norm_num)
      (by norm_num) (by norm_num) (by norm_num)]
    have henc : encodeSample ((65535 : ℚ)/65536) = 32766 := by
      unfold encodeSample ratTrunc
      dsimp only
      rw [min_eq_right (by norm_num : (65535 : ℚ)/65536 ≤ 1),
        max_eq_right (by norm_num : (-1 : ℚ) ≤ 65535/65536)]
      rw [if_neg (by norm_num), if_pos (by norm_num)]
      rw [Int.floor_eq_iff]
      constructor <;> norm_num
    simp only [show ([[(65535 : ℚ)/65536]] : List (List ℚ)).length = 1 from rfl,
      show (([[(65535 : ℚ)/65536]] : List (List ℚ)).headD []).length = 1 from rfl,
      List.range_succ, List.range_zero, List.nil_append,
      List.map_cons, List.map_nil, List.getD_cons_zero]
    rw [henc]
    norm_num
  · have habs : |(16383 : ℚ)/16384 - 65535/65536| = 3/65536 := by
      rw [show (16383 : ℚ)/16384 - 65535/65536 = -(3/65536) by norm_num]
      rw [abs_neg, abs_of_nonneg (by norm_num : (0 : ℚ) ≤ 3/65536)]
    rw [habs]
    norm_num

/-- Witness for the amended C7 at `channels = [[1/2]]`, rate 8000. -/
theorem wav_roundtrip_within_two_ulp_witness :
    ∃ decoded : List (List ℚ),
      decodeWav (encodeWav [[(1 : ℚ)/2]] 8000) = .ok (decoded, 8000) ∧
        decoded.length = ([[(1 : ℚ)/2]] : List (List ℚ)).length ∧
        (∀ ch ∈ decoded, ch.length =
          (([[(1 : ℚ)/2]] : List (List ℚ)).headD []).length) ∧
        ∀ ch i : ℕ,
          |(decoded.getD ch []).getD i 0 -
            (([[(1 : ℚ)/2]] : List (List ℚ)).getD ch []).getD i 0| ≤
            2 / 32768 :=
  wav_roundtrip_within_two_ulp [[(1 : ℚ)/2]] 8000 (Or.inl rfl)
    (by decide)
    (by intro ch hch x hx
        simp only [List.mem_cons, List.not_mem_nil, or_false] at hch
        subst hch
        simp only [List.mem_cons, List.not_mem_nil, or_false] at hx
        subst hx
        norm_num)
    (by decide) (by decide)

/-- C10 counterexample: a 44-byte buffer that passes the initial checks
(`RIFF`/`WAVE` present, mono, 16-bit) but declares `dataSize = 4` with an
empty payload; the decoder attempts a 16-bit read at offset 44, past the
end of the buffer, and fails with the `DataView` `RangeError` — the reads
are NOT always in bounds, because `dataSize` is never validated. -/
theorem decodeWav_reads_out_of_bounds :
    c10Buffer.length = 44 ∧
      decodeWav c10Buffer = .error .rangeError := by
  refine ⟨rfl, ?_⟩
  unfold decodeWav
  rw [if_neg (by decide), if_neg (by decide)]
  dsimp only
  rw [show readU16 c10Buffer 22 = 1 from by decide,
    show readU16 c10Buffer 34 = 16 from by decide,
    show readU32 c10Buffer 40 = 4 from by decide]
  rw [if_neg (by decide)]
  have hq : (((4 : ℕ)) : ℚ) / (((1 : ℕ) : ℚ) * (((16 : ℕ) : ℚ) / 8)) =
      ((2 : ℕ) : ℚ) := by
    push_cast
    norm_num
  rw [hq, Int.floor_natCast, Int.ceil_natCast, Int.toNat_natCast]
  rw [show List.range (2 * 1) = [0, 1] from rfl, List.mapM_cons]
  rw [show readI16Checked c10Buffer (44 + 2 * 0) = .error .rangeError from by
    unfold readI16Checked
    rw [if_neg (by decide)]]
  rfl

/-- C10 amended: for a buffer passing the initial checks with 16-bit
mono/stereo-style fields (`bitsPerSample = 16`, at least one channel, the
declared `dataSize` a multiple of one frame), every 16-bit read is in
bounds — and decoding succeeds — exactly when the declared extent
`44 + dataSize` fits in the buffer; the decoder itself never checks this,
so the guarantee is conditional on the field being consistent. -/
theorem decodeWav_reads_in_bounds_when_dataSize_fits (b : List ℕ)
    (hlen : 44 ≤ b.length)
    (htags : b.getD 0 0 = 0x52 ∧ b.getD 1 0 = 0x49 ∧ b.getD 2 0 = 0x46 ∧
      b.getD 3 0 = 0x46 ∧ b.getD 8 0 = 0x57 ∧ b.getD 9 0 = 0x41 ∧
      b.getD 10 0 = 0x56 ∧ b.getD 11 0 = 0x45)
    (hbits : readU16 b 34 = 16)
    (hnch : 0 < readU16 b 22)
    (hdvd : 2 * readU16 b 22 ∣ readU32 b 40)
    (hfit : 44 + readU32 b 40 ≤ b.length) :
    ∃ out, decodeWav b = .ok out := by
  obtain ⟨m, hm⟩ := hdvd
  unfold decodeWav
  rw [if_neg (by omega), if_neg (not_not_intro htags)]
  dsimp only
  rw [hbits]
  rw [if_neg (by omega)]
  have hq : ((readU32 b 40 : ℕ) : ℚ) /
      ((readU16 b 22 : ℚ) * (((16 : ℕ) : ℚ) / 8)) = ((m : ℕ) : ℚ) := by
    rw [hm]
    have hne0 : ((readU16 b 22 : ℕ) : ℚ) ≠ 0 := by
      exact_mod_cast Nat.pos_iff_ne_zero.mp hnch
    push_cast
    field_simp
    ring
  rw [hq, Int.floor_natCast, Int.ceil_natCast, Int.toNat_natCast]
  have hreads : ∀ j ∈ List.range (m * readU16 b 22),
      readI16Checked b (44 + 2 * j) = .ok (readI16 b (44 + 2 * j)) := by
    intro j hj
    have hjm : j < m * readU16 b 22 := List.mem_range.mp hj
    unfold readI16Checked
    rw [if_pos]
    have hds : 2 * (m * readU16 b 22) = readU32 b 40 := by
      rw [hm]; ring
    omega
  rw [mapM_ok_of_eq_ok _ _ _ hreads]
  exact ⟨_, rfl⟩

/-- Witness for the amended C10: a consistent 46-byte mono buffer
(`dataSize = 2`, one 16-bit sample present) decodes successfully. -/
theorem decodeWav_reads_in_bounds_witness :
    ∃ out, decodeWav c10WitnessBuffer = .ok out :=
  decodeWav_reads_in_bounds_when_dataSize_fits _ (by decide) (by decide)
    (by decide) (by decide) (by decide) (by decide)

/-- C5 counterexample: `fromChannels` happily constructs a Track from
channel buffers of unequal lengths (violating I1), and from an empty
channel list, raising no error in either case. -/
theorem fromChannels_accepts_invalid_input :
    (AudioTrack.fromChannels [[(0 : ℝ), 0], [0]] 44100).channels.map
        List.length = [2, 1] ∧
      (AudioTrack.fromChannels ([] : List (List ℝ)) 44100).channels = [] :=
  ⟨rfl, rfl⟩

/-- C5 amended: `fromChannels` performs no validation at all — for every
channel list (empty or of unequal lengths included) it returns a Track
wrapping exactly the given channels and the given rate, never an error;
invariant I1 is not enforced by this factory. -/
theorem fromChannels_wraps_unvalidated (channels : List (List ℝ))
    (rate : ℕ) :
    (AudioTrack.fromChannels channels rate).channels = channels ∧
      (AudioTrack.fromChannels channels rate).sampleRate = rate :=
  ⟨rfl, rfl⟩

/-- C3: neither `concat` nor `mix` compares sample rates.  At the
concrete pair of mono tracks with rates 44 100 and 48 000, `concat`
succeeds (returning the left track's rate) and `mix` succeeds — no
`SampleRateMismatch` is ever raised because no such check exists in the
source (`concat` checks only channel counts; `mix` checks nothing). -/
theorem concat_mix_ignore_rate_mismatch :
    AudioTrack.concat ⟨[[(0 : ℝ)]], 44100⟩ ⟨[[(0 : ℝ)]], 48000⟩ =
        .ok ⟨[[(0 : ℝ), 0]], 44100⟩ ∧
      (AudioTrack.mix ⟨[[(0 : ℝ)]], 44100⟩ ⟨[[(0 : ℝ)]], 48000⟩ none).channels =
          [[(0 : ℝ)]] ∧
      (AudioTrack.mix ⟨[[(0 : ℝ)]], 44100⟩ ⟨[[(0 : ℝ)]], 48000⟩ none).sampleRate =
          44100 := by
  refine ⟨?_, ?_, rfl⟩
  · rw [AudioTrack.concat, if_neg (by norm_num)]
    rfl
  · show mixChannels [[(0 : ℝ)]] [[(0 : ℝ)]] ((none : Option ℝ).getD 0) = _
    unfold mixChannels
    simp [List.range_succ]

/-- C4: `speed` performs no positivity check on the rate.  With rate −1,
an empty track SUCCEEDS (output length `Math.round(0 / -1) = 0`), and a
non-empty track fails with the typed-array `RangeError` (negative
length), not with any `InvalidSpeedRate` error — no such check or error
exists in the source. -/
theorem speed_nonpositive_rate_unchecked :
    AudioTrack.speed ⟨[([] : List ℝ)], 44100⟩ (-1) =
        .ok ⟨[([] : List ℝ)], 44100⟩ ∧
      changeSpeed [[(1 : ℝ)]] (-1) = .error .rangeError := by
  constructor
  · show (changeSpeed [([] : List ℝ)] (-1)).map _ = _
    unfold changeSpeed
    rw [List.mapM_cons]
    norm_num
    rfl
  · unfold changeSpeed
    rw [List.mapM_cons]
    rw [if_neg (by norm_num : ¬((-1 : ℝ) = 0))]
    have h1 : round ((([(1 : ℝ)].length : ℕ) : ℝ) / (-1)) = -1 := by
      have h2 : ((([(1 : ℝ)].length : ℕ) : ℝ) / (-1)) = ((-1 : ℤ) : ℝ) := by
        norm_num
      rw [h2, round_intCast]
    rw [h1, if_pos (by norm_num : (-1 : ℤ) < 0)]
    rfl

/-- C2: invoked without options, `trimSilence` compares `|sample|`
against a LINEAR default threshold of 0.01 (not `10^(-30/20)`) and keeps
no head/tail margin (`headMs = tailMs = 0`, not 10 ms / 50 ms): on
`[[0, 1/50, 0]]` at 1000 Hz it trims to `[[1/50]]`, although `1/50` is
below the claimed linear threshold `10^(-30/20)` (so the claimed
behaviour would return the input unchanged and would keep
`floor(10·rate/1000)` / `floor(50·rate/1000)` margin samples); the
facade passes options through without injecting any defaults. -/
theorem trimSilence_defaults_are_linear_and_zero :
    trimSilence [[(0 : ℝ), 1/50, 0]] 1000 none = [[(1 : ℝ)/50]] ∧
      (1 : ℝ)/50 < (10 : ℝ) ^ ((-30 : ℝ)/20) ∧
      ∀ (t : AudioTrack) (o : Option TrimSilenceOptions),
        (t.trimSilence o).channels = trimSilence t.channels t.sampleRate o := by
  have key : ∀ p : ℕ → Bool, p 0 = false → p 1 = true → p 2 = false →
      List.find? p [0, 1, 2] = some 1 ∧ List.find? p [2, 1, 0] = some 1 := by
    intro p h0 h1 h2
    constructor
    · rw [List.find?_cons_of_neg _ (by simp [h0]),
        List.find?_cons_of_pos _ h1]
    · rw [List.find?_cons_of_neg _ (by simp [h2]),
        List.find?_cons_of_pos _ h1]
  refine ⟨?_, ?_, fun t o => rfl⟩
  · have habs : |(1 : ℝ)/50| = 1/50 := abs_of_nonneg (by norm_num)
    obtain ⟨hF, hB⟩ := key
      (fun i => [[(0 : ℝ), 1/50, 0]].any fun ch =>
        decide ((0.01 : ℝ) < |ch.getD i 0|))
      (by simp only [List.any_cons, List.any_nil, Bool.or_false]
          exact decide_eq_false (by norm_num))
      (by simp only [List.any_cons, List.any_nil, Bool.or_false]
          exact decide_eq_true (by rw [show [(0:ℝ), 1/50, 0].getD 1 0 = 1/50 from rfl, habs]; norm_num))
      (by simp only [List.any_cons, List.any_nil, Bool.or_false]
          exact decide_eq_false (by norm_num))
    unfold trimSilence
    simp only [Option.none_bind, Option.getD_none, List.headD_cons,
      List.length_cons, List.length_nil]
    rw [show List.range (0 + 1 + 1 + 1) = [0, 1, 2] from rfl,
      show ([0, 1, 2] : List ℕ).reverse = [2, 1, 0] from rfl]
    rw [hF, hB]
    have hfl : ⌊(0 : ℝ) / 1000 * ((1000 : ℕ) : ℝ)⌋ = 0 := by
      rw [zero_div, zero_mul, Int.floor_zero]
    rw [hfl]
    norm_num
  · have hy : (0 : ℝ) < (10 : ℝ) ^ ((3 : ℝ)/2) :=
      Real.rpow_pos_of_pos (by norm_num) _
    have hsq : ((10 : ℝ) ^ ((3 : ℝ)/2)) ^ (2 : ℕ) = 1000 := by
      rw [← Real.rpow_natCast ((10 : ℝ) ^ ((3 : ℝ)/2)) 2,
        ← Real.rpow_mul (by norm_num : (0 : ℝ) ≤ 10)]
      rw [show ((3 : ℝ)/2 * ((2 : ℕ) : ℝ)) = ((3 : ℕ) : ℝ) by norm_num,
        Real.rpow_natCast]
      norm_num
    have hlt : (10 : ℝ) ^ ((3 : ℝ)/2) < 50 := by
      nlinarith [hsq, hy, sq_nonneg ((10 : ℝ) ^ ((3 : ℝ)/2) - 50)]
    rw [show ((-30 : ℝ)/20) = -((3 : ℝ)/2) by norm_num,
      Real.rpow_neg (by norm_num : (0 : ℝ) ≤ 10),
      show ((1 : ℝ)/50) = ((50 : ℝ))⁻¹ from one_div 50]
    exact inv_strictAnti₀ hy hlt

/-- C1: with no options, the true-peak ceiling `normalize` enforces is
−1 dBTP (the inner default), not the documented −1.5 dBTP: the resolved
default peak limit is −1; in a capped scenario (loudness −40 LUFS, max
true peak 1) the final gain equals `dbToLinear (-1)` exactly, which is
strictly above `dbToLinear (-1.5)`; and the facade passes options through
without injecting any default of its own. -/
theorem normalize_default_peakLimit_is_minus_one :
    resolveNormalizePeakLimit none = -1 ∧
      normalizeFinalGain (resolveNormalizeTarget none)
          (resolveNormalizePeakLimit none) (-40) 1 = dbToLinear (-1) ∧
      dbToLinear (-1.5) < dbToLinear (-1) ∧
      ∀ (t : AudioTrack) (o : Option NormalizeOptions),
        t.normalize o = (normalizeLoudness t.channels t.sampleRate o).map
          fun chans => ⟨chans, t.sampleRate⟩ := by
  refine ⟨rfl, ?_, ?_, fun t o => rfl⟩
  · show (if dbToLinear (-1) < 1 * dbToLinear (-14 - -40) then
        dbToLinear (-1) / 1 else dbToLinear (-14 - -40)) = dbToLinear (-1)
    have hcond : dbToLinear (-1) < 1 * dbToLinear (-14 - -40) := by
      rw [one_mul]
      unfold dbToLinear
      exact (Real.rpow_lt_rpow_left_iff (by norm_num)).mpr (by norm_num)
    rw [if_pos hcond, div_one]
  · unfold dbToLinear
    exact (Real.rpow_lt_rpow_left_iff (by norm_num)).mpr (by norm_num)

end Neiro
